import Mathlib

/-!
Verification development for the zkVM verifiable-memory subsystem:
`src/risc0/zkvm/src/binfmt/image.rs` (page-table geometry, memory image,
Merkle hashing, integrity check) and `src/risc0/zkvm/src/exec/monitor.rs`
(the transactional memory-access monitor).

Machine integers are modelled as `Nat`; every operation that can panic in
Rust (a failed `assert!`, an out-of-bounds `Vec` index, `Option::unwrap` on
`None`) is modelled as an `Option`/`Except` returning `none`/`.error`.
-/

/-! ## Platform constants

`DIGEST_BYTES`, `BLOCK_BYTES`, `WORD_SIZE`, `DOUBLE_WORD_SIZE`, `MEM_SIZE`,
`PAGE_TABLE.start()` and `SYSTEM.start()` are imported by the source from the
platform crates, which are not under `src/`. -/

/-- Modelled from the spec: "fixed-size (32-byte) hash value". -/
def DIGEST_BYTES : Nat := 32

/-- Modelled from the spec: the compression block size; the spec fixes
`table_size == 2 * digest_size` for a one-page region, so the block is
64 bytes (the SHA-256 block size). -/
def BLOCK_BYTES : Nat := 64

/-- Modelled from the spec: multi-byte accesses "assert address alignment to
their width (2/4/8 bytes)", so a word is 4 bytes. -/
def WORD_SIZE : Nat := 4

/-- Modelled from the spec: multi-byte accesses "assert address alignment to
their width (2/4/8 bytes)", so a double word is 8 bytes. -/
def DOUBLE_WORD_SIZE : Nat := 8

/-- Modelled from the spec: the byte buffer is "sized to cover primary
memory, page-table region, and root page"; the spec's worked layout (root
address `0xD6B5AC0`) fits in a 256 MiB address space. -/
def MEM_SIZE : Nat := 0x10000000

/-- Modelled from the spec: the start of the page-table region. The spec's
worked example (leaf layer size `6815744 = (base / 1024) * 32`) gives
`base = 0x0D000000`. -/
def PAGE_TABLE_START : Nat := 0x0D000000

/-- Modelled from the spec: the base of the "reserved system region" holding
the register file. Its exact value does not affect any claim. -/
def SYSTEM_START : Nat := 0x0C000000

/-! ## The compression primitive

Modelled from the spec: the source calls `sha::Impl::compress` from the
cryptographic crate, which is not under `src/`; the spec describes it as the
"two-block-input, one-state-output hashing step" with the fixed SHA-256
initial state. It is modelled as the standard SHA-256 compression function
on 32-bit words (digests are lists of eight 32-bit words; bytes are grouped
into words little-endian). -/

/-- The SHA-256 initial hash state (`SHA256_INIT`), eight 32-bit words,
written in decimal. -/
def shaInit : List Nat :=
  [1779033703, 3144134277, 1013904242, 2773480762,
   1359893119, 2600822924, 528734696, 1541459225]

/-- The 64 SHA-256 round constants, written in decimal. -/
def shaK : List Nat :=
  [1116352408, 1899447441, 3049323471, 3921009573,
   961987163, 1508970993, 2453635748, 2870763221,
   3624381080, 310598401, 607225278, 1426881987,
   1925078388, 2162078206, 2614888103, 3248222580,
   3835390401, 4022224774, 264347078, 604807628,
   770255983, 1249150122, 1555081692, 1996064986,
   2554220882, 2821834349, 2952996808, 3210313671,
   3336571891, 3584528711, 113926993, 338241895,
   666307205, 773529912, 1294757372, 1396182291,
   1695183700, 1986661051, 2177026350, 2456956037,
   2730485921, 2820302411, 3259730800, 3345764771,
   3516065817, 3600352804, 4094571909, 275423344,
   430227734, 506948616, 659060556, 883997877,
   958139571, 1322822218, 1537002063, 1747873779,
   1955562222, 2024104815, 2227730452, 2361852424,
   2428436474, 2756734187, 3204031479, 3329325298]

/-- 32-bit right rotation. -/
def rotr32 (x n : Nat) : Nat := ((x >>> n) ||| (x <<< (32 - n))) % 4294967296

def shaBigSigma0 (x : Nat) : Nat := rotr32 x 2 ^^^ rotr32 x 13 ^^^ rotr32 x 22

def shaBigSigma1 (x : Nat) : Nat := rotr32 x 6 ^^^ rotr32 x 11 ^^^ rotr32 x 25

def shaSmallSigma0 (x : Nat) : Nat := rotr32 x 7 ^^^ rotr32 x 18 ^^^ (x >>> 3)

def shaSmallSigma1 (x : Nat) : Nat := rotr32 x 17 ^^^ rotr32 x 19 ^^^ (x >>> 10)

def shaCh (x y z : Nat) : Nat := (x &&& y) ^^^ ((x ^^^ 4294967295) &&& z)

def shaMaj (x y z : Nat) : Nat := (x &&& y) ^^^ (x &&& z) ^^^ (y &&& z)

/-- Extend the 16 message words by `n` further schedule words. -/
def shaExtend (w : List Nat) : Nat → List Nat
  | 0 => w
  | n + 1 =>
    let len := w.length
    let next := (w.getD (len - 16) 0 + shaSmallSigma0 (w.getD (len - 15) 0) +
                 w.getD (len - 7) 0 + shaSmallSigma1 (w.getD (len - 2) 0)) % 4294967296
    shaExtend (w ++ [next]) n

/-- One SHA-256 round on the working state `[a,b,c,d,e,f,g,h]`. -/
def shaRound (st : List Nat) (w k : Nat) : List Nat :=
  match st with
  | [a, b, c, d, e, f, g, h] =>
    let t1 := (h + shaBigSigma1 e + shaCh e f g + k + w) % 4294967296
    let t2 := (shaBigSigma0 a + shaMaj a b c) % 4294967296
    [(t1 + t2) % 4294967296, a, b, c, (d + t1) % 4294967296, e, f, g]
  | _ => st

/-- `compress(state, block1, block2)`: the SHA-256 compression function on a
state of eight words and two half-blocks of eight words each. -/
def shaCompress (state block1 block2 : List Nat) : List Nat :=
  let w := shaExtend (block1 ++ block2) 48
  let fin := (w.zip shaK).foldl (fun st p => shaRound st p.1 p.2) state
  (state.zip fin).map (fun p => (p.1 + p.2) % 4294967296)

/-- Group a byte list into 32-bit words, little-endian
(`Digest::try_from(bytes)` on a little-endian platform). -/
def bytesToWords : List Nat → List Nat
  | b0 :: b1 :: b2 :: b3 :: rest =>
    (b0 + 256 * b1 + 65536 * b2 + 16777216 * b3) :: bytesToWords rest
  | _ => []

/-- `slice::chunks_exact(n)`, with an explicit structural bound on the number
of chunks: each step consumes `n ≥ 1` elements, so `l.length` chunks always
suffice and the function equals the unbounded loop. -/
def chunksExactAux (n : Nat) : Nat → List Nat → List (List Nat)
  | 0, _ => []
  | fuel + 1, l =>
    if 0 < n ∧ n ≤ l.length then
      l.take n :: chunksExactAux n fuel (l.drop n)
    else []

/-- `slice::chunks_exact(n)`: the full consecutive chunks of length `n`. -/
def chunksExact (n : Nat) (l : List Nat) : List (List Nat) :=
  chunksExactAux n l.length l

/-- `hash_page` (image.rs:217): asserts the page length is a multiple of
`BLOCK_BYTES` (`none` models the panic), then folds the page left-to-right,
one 64-byte block at a time, each block split into two 32-byte halves fed to
the compression primitive, starting from `SHA256_INIT`. -/
def hash_page (page : List Nat) : Option (List Nat) :=
  if page.length % BLOCK_BYTES = 0 then
    some ((chunksExact BLOCK_BYTES page).foldl
      (fun st block =>
        shaCompress st (bytesToWords (block.take DIGEST_BYTES))
          (bytesToWords (block.drop DIGEST_BYTES)))
      shaInit)
  else none

/-! ## Page-table geometry (image.rs) -/

/-- `div_ceil` (image.rs:33): `ceil(a / b)` via truncated division. -/
def div_ceil (a b : Nat) : Nat := (a + b - 1) / b

/-- `round_up` (image.rs:38): round `a` up to the nearest multiple of `b`. -/
def round_up (a b : Nat) : Nat := div_ceil a b * b

/-- `PageTableInfo` (image.rs:43). The Rust fields `_page_table_size` and
`_layers` keep their names without the dead-code underscore. -/
structure PageTableInfo where
  page_size : Nat
  page_table_addr : Nat
  page_table_size : Nat
  root_addr : Nat
  root_idx : Nat
  root_page_addr : Nat
  num_pages : Nat
  num_root_entries : Nat
  layers : List Nat
deriving DecidableEq, Repr

/-- The `while remain >= page_size` loop of `PageTableInfo::new`
(image.rs:63-68), returning (`layers`, unrounded `page_table_size`). The Rust
loop never terminates when `page_size ≤ DIGEST_BYTES` (then
`remain = (remain / page_size) * DIGEST_BYTES` never drops below
`page_size`), so the recursion is guarded by `DIGEST_BYTES < page_size`; on
every terminating execution of the source the embedding is exact. -/
def ptLayersAux (page_size : Nat) : Nat → Nat → List Nat × Nat
  | 0, _ => ([], 0)
  | fuel + 1, remain =>
    if DIGEST_BYTES < page_size ∧ page_size ≤ remain then
      let np := remain / page_size
      let r := np * DIGEST_BYTES
      let rest := ptLayersAux page_size fuel r
      (r :: rest.1, r + rest.2)
    else ([], 0)

/-- The layer loop entered with `remain` units of fuel: under the
`DIGEST_BYTES < page_size` guard, `remain` strictly decreases every
iteration, so `remain` iterations always suffice and the bounded loop equals
the source's unbounded one. -/
def ptLayers (page_size remain : Nat) : List Nat × Nat :=
  ptLayersAux page_size remain remain

/-- `PageTableInfo::new` (image.rs:56-91). `none` models a panicking
`assert!`: either `max_mem < page_size` or the final
`assert_eq!(root_idx, num_pages)` failing. -/
def PageTableInfo.new (page_table_addr page_size : Nat) : Option PageTableInfo :=
  let max_mem := page_table_addr
  if max_mem < page_size then none
  else
    let lp := ptLayers page_size max_mem
    let layers := lp.1
    let raw_size := lp.2
    let max_mem2 := max_mem + raw_size
    let num_pages := max_mem2 / page_size
    let page_table_size := round_up raw_size BLOCK_BYTES
    let root_addr := page_table_addr + page_table_size
    let root_idx := root_addr / page_size
    let root_page_addr := root_idx * page_size
    let num_root_entries := (root_addr - root_page_addr) / DIGEST_BYTES
    if root_idx = num_pages then
      some { page_size, page_table_addr, page_table_size, root_addr, root_idx,
             root_page_addr, num_pages, num_root_entries, layers }
    else none

/-- `PageTableInfo::get_page_addr` (image.rs:93). -/
def PageTableInfo.get_page_addr (info : PageTableInfo) (page_idx : Nat) : Nat :=
  page_idx * info.page_size

/-- `PageTableInfo::get_page_index` (image.rs:97). -/
def PageTableInfo.get_page_index (info : PageTableInfo) (addr : Nat) : Nat :=
  addr / info.page_size

/-- `PageTableInfo::get_page_entry_addr` (image.rs:101). -/
def PageTableInfo.get_page_entry_addr (info : PageTableInfo) (page_idx : Nat) : Nat :=
  info.page_table_addr + page_idx * DIGEST_BYTES

/-! ## MemoryImage (image.rs) -/

/-- `MemoryImage` (image.rs:111): the page-table metadata and the
byte-addressable memory buffer (`buf`, one byte per address — the Rust
`MemorySpace`/`VecMemory` pair over `MEM_SIZE` bytes, which `monitor.rs` and
`check` index as `self.buf`). -/
structure MemoryImage where
  info : PageTableInfo
  buf : Nat → Nat

/-- One `write_mem(addr, Word, data)` of `MemoryImage::new` (image.rs:139):
write the four little-endian bytes of the 32-bit word `data` at `addr`. -/
def writeWord (buf : Nat → Nat) (addr data : Nat) : Nat → Nat :=
  fun i => if addr ≤ i ∧ i < addr + WORD_SIZE then (data >>> ((i - addr) * 8)) % 256 else buf i

/-- `MemoryImage::hash_pages` (image.rs:157-168): the entire body is
commented out in the source, so the function changes nothing. -/
def MemoryImage.hash_pages (img : MemoryImage) : MemoryImage := img

/-- `MemoryImage::new` (image.rs:128-154): zero-initialize the buffer, write
every `(addr, word)` pair of the program image, compute the geometry from
`PAGE_TABLE.start()` and `page_size` (`none` models its panicking asserts),
then run `hash_pages`. -/
def MemoryImage.new (program : List (Nat × Nat)) (page_size : Nat) : Option MemoryImage :=
  let buf := program.foldl (fun b p => writeWord b p.1 p.2) (fun _ => 0)
  match PageTableInfo.new PAGE_TABLE_START page_size with
  | some info => some (MemoryImage.hash_pages { info := info, buf := buf })
  | none => none

/-- `MemoryImage::get_root` (image.rs:209-214): the body that would read the
root page is commented out in the source; it returns `hash_page` of the
empty slice. -/
def MemoryImage.get_root (_img : MemoryImage) : Option (List Nat) :=
  hash_page []

/-- The outcome of `MemoryImage::check`: `invalidPageEntry i` is the
"Invalid page table entry" bail for page `i`, `invalidRoot` the "Invalid
root hash" bail, `hashAssert` the length assert inside `hash_page`, and
`fuelOut` a loop that outran its iteration bound (never reached on the
source's executions, where each iteration moves to a strictly higher page). -/
inductive CheckError where
  | invalidPageEntry : Nat → CheckError
  | invalidRoot : CheckError
  | hashAssert : CheckError
  | fuelOut : CheckError
deriving DecidableEq, Repr

/-- The `while page_idx < root_idx` walk of `MemoryImage::check`
(image.rs:176-206), followed by the root-page comparison. -/
def checkLoop (img : MemoryImage) : Nat → Nat → Except CheckError Unit
  | 0, _ => .error .fuelOut
  | fuel + 1, page_idx =>
    if page_idx < img.info.root_idx then
      let page_addr := img.info.get_page_addr page_idx
      let page := (List.range img.info.page_size).map (fun i => img.buf (page_addr + i))
      match hash_page page with
      | none => .error .hashAssert
      | some expected =>
        let entry_addr := img.info.get_page_entry_addr page_idx
        let entry := (List.range DIGEST_BYTES).map (fun i => img.buf (entry_addr + i))
        let actual := bytesToWords entry
        if expected = actual then checkLoop img fuel (img.info.get_page_index entry_addr)
        else .error (.invalidPageEntry page_idx)
    else
      let root_page_bytes := img.info.num_root_entries * DIGEST_BYTES
      let root_page :=
        (List.range root_page_bytes).map (fun i => img.buf (img.info.root_page_addr + i))
      match hash_page root_page, img.get_root with
      | some expected, some root =>
        if expected = root then .ok () else .error .invalidRoot
      | _, _ => .error .hashAssert

/-- `MemoryImage::check(addr)` (image.rs:176): verify every page digest on
the path from `addr`'s page to the root against its table entry, then the
recomputed root-page digest against `get_root()`. -/
def MemoryImage.check (img : MemoryImage) (addr : Nat) : Except CheckError Unit :=
  checkLoop img (img.info.root_idx + 1) (img.info.get_page_index addr)

/-! ## The memory monitor (monitor.rs) -/

/-- `SyscallRecord` (declared in `exec`, outside `src/`). Modelled from the
spec: the monitor "only records that a syscall occurred", so the record is
opaque to this core and carries an uninterpreted tag. -/
structure SyscallRecord where
  tag : Nat
deriving DecidableEq, Repr

/-- `OpCodeResult` (declared in `exec`, outside `src/`). Modelled from the
spec: the per-instruction result "holds an optional syscall record"; the
monitor reads only that field. -/
structure OpCodeResult where
  syscall : Option SyscallRecord
deriving DecidableEq, Repr

/-- `MemStore` (monitor.rs:36-40): a buffered byte write. The derived Rust
`Ord` compares `addr` first, then `data`. -/
structure MemStore where
  addr : Nat
  data : Nat
deriving DecidableEq, Repr

/-- The derived lexicographic strict order on `MemStore`. -/
def MemStore.before (x y : MemStore) : Prop :=
  x.addr < y.addr ∨ (x.addr = y.addr ∧ x.data < y.data)

instance (x y : MemStore) : Decidable (x.before y) := by
  unfold MemStore.before; infer_instance

/-- `BTreeSet<MemStore>::insert`: the set is kept as its ascending-order
iteration sequence; inserting places the element at its ordered position and
keeps an already-present equal element once. -/
def insertStore : List MemStore → MemStore → List MemStore
  | [], x => [x]
  | y :: l, x =>
    if x.before y then x :: y :: l
    else if x = y then y :: l
    else y :: insertStore l x

/-- `MemoryMonitor` (monitor.rs:42-50): `pending_writes` is the
`BTreeSet<MemStore>` as its ascending iteration sequence. -/
structure MemoryMonitor where
  image : MemoryImage
  pending_writes : List MemStore
  cycle : Nat
  op_result : Option OpCodeResult
  syscalls : List SyscallRecord

/-- `MemoryMonitor::new` (monitor.rs:53-63). -/
def MemoryMonitor.new (image : MemoryImage) : MemoryMonitor :=
  { image := image, pending_writes := [], cycle := 0, op_result := none, syscalls := [] }

/-- `MemoryMonitor::load_u8` (monitor.rs:65-70): read the byte straight from
the image buffer; `none` models the `Vec` index panic past `MEM_SIZE`. -/
def MemoryMonitor.load_u8 (s : MemoryMonitor) (addr : Nat) : Option Nat :=
  if addr < MEM_SIZE then some (s.image.buf addr) else none

/-- `MemoryMonitor::load_array::<N>` (monitor.rs:89-91):
`array::from_fn(|idx| load_u8(addr + idx))`. -/
def MemoryMonitor.load_array (s : MemoryMonitor) (addr : Nat) : Nat → Option (List Nat)
  | 0 => some []
  | n + 1 =>
    match s.load_u8 addr, s.load_array (addr + 1) n with
    | some b, some bs => some (b :: bs)
    | _, _ => none

/-- `u16/u32/u64::from_le_bytes`: assemble a value from little-endian bytes. -/
def fromLEBytes : List Nat → Nat
  | [] => 0
  | b :: bs => b + 256 * fromLEBytes bs

/-- `uN::to_le_bytes`: the `n` little-endian bytes of `v`. -/
def toLEBytes : Nat → Nat → List Nat
  | 0, _ => []
  | n + 1, v => v % 256 :: toLEBytes n (v / 256)

/-- `MemoryMonitor::load_u16` (monitor.rs:72-75): `assert_eq!(addr % 2, 0)`
(`none` models the panic), then `from_le_bytes(load_array::<2>)`. -/
def MemoryMonitor.load_u16 (s : MemoryMonitor) (addr : Nat) : Option Nat :=
  if addr % 2 = 0 then (s.load_array addr 2).map fromLEBytes else none

/-- `MemoryMonitor::load_u32` (monitor.rs:77-81). -/
def MemoryMonitor.load_u32 (s : MemoryMonitor) (addr : Nat) : Option Nat :=
  if addr % WORD_SIZE = 0 then (s.load_array addr 4).map fromLEBytes else none

/-- `MemoryMonitor::load_u64` (monitor.rs:83-87). -/
def MemoryMonitor.load_u64 (s : MemoryMonitor) (addr : Nat) : Option Nat :=
  if addr % DOUBLE_WORD_SIZE = 0 then (s.load_array addr 8).map fromLEBytes else none

/-- `get_register_addr` (monitor.rs:274-276). -/
def get_register_addr (idx : Nat) : Nat :=
  SYSTEM_START + idx * DOUBLE_WORD_SIZE

/-- `MemoryMonitor::load_register` (monitor.rs:93-100). -/
def MemoryMonitor.load_register (s : MemoryMonitor) (idx : Nat) : Option Nat :=
  s.load_u64 (get_register_addr idx)

/-- `MemoryMonitor::store_u8` (monitor.rs:119-124): insert the buffered
write into `pending_writes`; nothing else changes. -/
def MemoryMonitor.store_u8 (s : MemoryMonitor) (addr data : Nat) : MemoryMonitor :=
  { s with pending_writes := insertStore s.pending_writes { addr := addr, data := data } }

/-- `MemoryMonitor::store_region` (monitor.rs:142-147):
`slice.iter().enumerate().for_each(|(i, x)| store_u8(addr + i, x))`. -/
def MemoryMonitor.store_region (s : MemoryMonitor) (addr : Nat) : List Nat → MemoryMonitor
  | [] => s
  | b :: bs => (s.store_u8 addr b).store_region (addr + 1) bs

/-- `MemoryMonitor::store_u16` (monitor.rs:126-129): `assert_eq!(addr % 2,
0)` (`none` models the panic), then `store_region(addr, to_le_bytes)`. -/
def MemoryMonitor.store_u16 (s : MemoryMonitor) (addr data : Nat) : Option MemoryMonitor :=
  if addr % 2 = 0 then some (s.store_region addr (toLEBytes 2 data)) else none

/-- `MemoryMonitor::store_u32` (monitor.rs:131-134). -/
def MemoryMonitor.store_u32 (s : MemoryMonitor) (addr data : Nat) : Option MemoryMonitor :=
  if addr % WORD_SIZE = 0 then some (s.store_region addr (toLEBytes 4 data)) else none

/-- `MemoryMonitor::store_u64` (monitor.rs:136-140). -/
def MemoryMonitor.store_u64 (s : MemoryMonitor) (addr data : Nat) : Option MemoryMonitor :=
  if addr % DOUBLE_WORD_SIZE = 0 then some (s.store_region addr (toLEBytes 8 data)) else none

/-- `MemoryMonitor::store_register` (monitor.rs:149-151). -/
def MemoryMonitor.store_register (s : MemoryMonitor) (idx data : Nat) : Option MemoryMonitor :=
  s.store_u64 (get_register_addr idx) data

/-- `MemoryMonitor::save_op` (monitor.rs:153-155). -/
def MemoryMonitor.save_op (s : MemoryMonitor) (op_result : OpCodeResult) : MemoryMonitor :=
  { s with op_result := some op_result }

/-- `MemoryMonitor::restore_op` (monitor.rs:157-159). -/
def MemoryMonitor.restore_op (s : MemoryMonitor) : Option OpCodeResult :=
  s.op_result

/-- The `for op in self.pending_writes.iter()` loop of commit
(monitor.rs:164-169): each buffered write is applied in ascending set order
via `self.image.buf[op.addr] = op.data`. An address at or past the end of
the buffer is logged and then written anyway, so it still panics on the
`Vec` index (`none`). -/
def commitWrites : List MemStore → (Nat → Nat) → Option (Nat → Nat)
  | [], buf => some buf
  | op :: l, buf =>
    if op.addr < MEM_SIZE then commitWrites l (Function.update buf op.addr op.data)
    else none

/-- `MemoryMonitor::commit` (monitor.rs:162-178): apply every buffered
write, clear the buffer, `self.op_result.take().unwrap()` (`none` models the
unwrap panic when no result was saved), and append the result's syscall
record, when present, to the segment log. -/
def MemoryMonitor.commit (s : MemoryMonitor) : Option MemoryMonitor :=
  match commitWrites s.pending_writes s.image.buf with
  | none => none
  | some buf =>
    match s.op_result with
    | none => none
    | some r =>
      some { s with
        image := { s.image with buf := buf },
        pending_writes := [],
        op_result := none,
        syscalls := s.syscalls ++ r.syscall.toList }

/-- `MemoryMonitor::clear_segment` (monitor.rs:223-226). -/
def MemoryMonitor.clear_segment (s : MemoryMonitor) : MemoryMonitor :=
  { s with syscalls := [] }

/-- `MemoryMonitor::clear_session` (monitor.rs:228-232): `clear_segment`,
then drop all pending writes. -/
def MemoryMonitor.clear_session (s : MemoryMonitor) : MemoryMonitor :=
  { s.clear_segment with pending_writes := [] }

/-! ## Derived helpers and concrete states used by the theorems -/

/-- The monitor state agrees with `s` on everything except the
pending-write buffer. -/
def sameExceptPending (s t : MemoryMonitor) : Prop :=
  t.image = s.image ∧ t.cycle = s.cycle ∧ t.op_result = s.op_result ∧ t.syscalls = s.syscalls

/-- The buffered writes `store_region a bs` issues: byte `bs[i]` at
address `a + i`. -/
def regionEntries (a : Nat) : List Nat → List MemStore
  | [] => []
  | b :: bs => { addr := a, data := b } :: regionEntries (a + 1) bs

/-- Write the bytes `bs` into `buf` at consecutive addresses from `a`. -/
def writeBytes (buf : Nat → Nat) (a : Nat) : List Nat → (Nat → Nat)
  | [] => buf
  | b :: bs => writeBytes (Function.update buf a b) (a + 1) bs

/-- The geometry `PageTableInfo::new(1024, 1024)` computes (a one-page
primary memory; the repository's own `page_size_1k` test exercises it). -/
def infoTest : PageTableInfo :=
  { page_size := 1024, page_table_addr := 1024, page_table_size := 64,
    root_addr := 1088, root_idx := 1, root_page_addr := 1024,
    num_pages := 1, num_root_entries := 2, layers := [32] }

/-- An all-zero memory image over `infoTest`. -/
def imgTest : MemoryImage := { info := infoTest, buf := fun _ => 0 }

/-- A freshly constructed monitor over the all-zero image. -/
def monTest : MemoryMonitor := MemoryMonitor.new imgTest

/-- A per-instruction result carrying no syscall record. -/
def opNone : OpCodeResult := { syscall := none }

/-- A per-instruction result carrying a syscall record. -/
def opSys : OpCodeResult := { syscall := some { tag := 5 } }

/-- A monitor about to commit one in-bounds buffered write with a saved
result. -/
def commitTest : MemoryMonitor :=
  { image := imgTest, pending_writes := [{ addr := 0, data := 7 }],
    cycle := 0, op_result := some opSys, syscalls := [] }

/-- The state `commitTest.commit` produces. -/
def commitTestAfter : MemoryMonitor :=
  { image := { info := infoTest, buf := Function.update (fun _ => 0) 0 7 },
    pending_writes := [], cycle := 0, op_result := none,
    syscalls := [{ tag := 5 }] }

/-- A monitor holding one buffered write whose address is exactly
`MEM_SIZE`, one byte past the end of the buffer, with a saved result. -/
def oobTest : MemoryMonitor :=
  { image := imgTest, pending_writes := [{ addr := MEM_SIZE, data := 7 }],
    cycle := 0, op_result := some opNone, syscalls := [] }

/-- A second out-of-bounds state, four bytes past the end. -/
def oobTest2 : MemoryMonitor :=
  { image := imgTest, pending_writes := [{ addr := MEM_SIZE + 4, data := 1 }],
    cycle := 0, op_result := some opNone, syscalls := [] }

/-- The state reached from a fresh monitor by `store_u16(0, 5)`. -/
def storeU16Test : MemoryMonitor := monTest.store_region 0 (toLEBytes 2 5)

/-! ## Helper lemmas -/

theorem commitWrites_not_mem : ∀ (l : List MemStore) (buf buf' : Nat → Nat) (a : Nat),
    commitWrites l buf = some buf' → (∀ d, MemStore.mk a d ∉ l) → buf' a = buf a := by
  intro l
  induction l with
  | nil =>
    intro buf buf' a h _
    simp only [commitWrites, Option.some.injEq] at h
    rw [← h]
  | cons op t ih =>
    intro buf buf' a h hn
    rw [commitWrites] at h
    split at h
    · have ha : a ≠ op.addr := by
        intro he
        exact hn op.data (by rw [he]; exact List.mem_cons_self _ _)
      have := ih _ _ a h (fun d hd => hn d (List.mem_cons_of_mem _ hd))
      rw [this, Function.update_noteq ha]
    · exact absurd h (by simp)

theorem commitWrites_unique : ∀ (l : List MemStore) (buf buf' : Nat → Nat) (a d : Nat),
    commitWrites l buf = some buf' → MemStore.mk a d ∈ l →
    (∀ d', MemStore.mk a d' ∈ l → d' = d) → buf' a = d := by
  intro l
  induction l with
  | nil => intro buf buf' a d _ hm; cases hm
  | cons op t ih =>
    intro buf buf' a d h hm hu
    rw [commitWrites] at h
    split at h
    · rcases List.mem_cons.mp hm with heq | ht
      · by_cases hex : ∃ d', MemStore.mk a d' ∈ t
        · obtain ⟨d', hd'⟩ := hex
          have hdd : d' = d := hu d' (List.mem_cons_of_mem _ hd')
          subst hdd
          exact ih _ _ a d' h hd' (fun e he => hu e (List.mem_cons_of_mem _ he))
        · push_neg at hex
          have hfr := commitWrites_not_mem t _ buf' a h hex
          rw [hfr, ← heq, Function.update_same]
      · exact ih _ _ a d h ht (fun e he => hu e (List.mem_cons_of_mem _ he))
    · exact absurd h (by simp)

theorem commitWrites_oob : ∀ (l : List MemStore) (buf : Nat → Nat) (op : MemStore),
    op ∈ l → MEM_SIZE ≤ op.addr → commitWrites l buf = none := by
  intro l
  induction l with
  | nil => intro buf op hm; cases hm
  | cons y t ih =>
    intro buf op hm hoob
    rw [commitWrites]
    rcases List.mem_cons.mp hm with heq | ht
    · rw [if_neg (by rw [← heq]; omega)]
    · split
      · exact ih _ op ht hoob
      · rfl

theorem commit_eq (s : MemoryMonitor) (buf : Nat → Nat) (r : OpCodeResult)
    (h1 : commitWrites s.pending_writes s.image.buf = some buf)
    (h2 : s.op_result = some r) :
    s.commit = some { s with image := { s.image with buf := buf },
                             pending_writes := [], op_result := none,
                             syscalls := s.syscalls ++ r.syscall.toList } := by
  unfold MemoryMonitor.commit
  rw [h1, h2]

theorem commit_none_of_no_result (s : MemoryMonitor) (h : s.op_result = none) :
    s.commit = none := by
  unfold MemoryMonitor.commit
  rw [h]
  split <;> rfl

theorem insertStore_append : ∀ (l : List MemStore) (x : MemStore),
    (∀ p ∈ l, p.addr < x.addr) → insertStore l x = l ++ [x] := by
  intro l
  induction l with
  | nil => intro x _; rfl
  | cons y t ih =>
    intro x h
    have hy : y.addr < x.addr := h y (List.mem_cons_self _ _)
    have h1 : ¬ x.before y := by unfold MemStore.before; omega
    have h2 : x ≠ y := by intro he; rw [he] at hy; omega
    rw [insertStore, if_neg h1, if_neg h2, ih x (fun p hp => h p (List.mem_cons_of_mem _ hp))]
    rfl

theorem store_u8_pending (s : MemoryMonitor) (a d : Nat) :
    (s.store_u8 a d).pending_writes = insertStore s.pending_writes { addr := a, data := d } :=
  rfl

theorem store_u8_sep (s : MemoryMonitor) (a d : Nat) :
    sameExceptPending s (s.store_u8 a d) :=
  ⟨rfl, rfl, rfl, rfl⟩

theorem store_region_sep : ∀ (bs : List Nat) (s : MemoryMonitor) (a : Nat),
    sameExceptPending s (s.store_region a bs) := by
  intro bs
  induction bs with
  | nil => exact fun s a => ⟨rfl, rfl, rfl, rfl⟩
  | cons b bs ih => exact fun s a => ih (s.store_u8 a b) (a + 1)

theorem store_region_pending : ∀ (bs : List Nat) (s : MemoryMonitor) (a : Nat),
    (∀ p ∈ s.pending_writes, p.addr < a) →
    (s.store_region a bs).pending_writes = s.pending_writes ++ regionEntries a bs := by
  intro bs
  induction bs with
  | nil => intro s a _; simp [MemoryMonitor.store_region, regionEntries]
  | cons b bs ih =>
    intro s a h
    have h8 : (s.store_u8 a b).pending_writes = s.pending_writes ++ [{ addr := a, data := b }] :=
      insertStore_append s.pending_writes _ h
    show ((s.store_u8 a b).store_region (a + 1) bs).pending_writes = _
    rw [ih (s.store_u8 a b) (a + 1) ?bound, h8, regionEntries]
    · simp
    case bound =>
      intro p hp
      rw [h8] at hp
      rcases List.mem_append.mp hp with h1 | h2
      · have := h p h1; omega
      · have hpb : p = { addr := a, data := b } := by simpa using h2
        rw [hpb]; show a < a + 1; omega

theorem commitWrites_region : ∀ (bs : List Nat) (buf : Nat → Nat) (a : Nat),
    a + bs.length ≤ MEM_SIZE →
    commitWrites (regionEntries a bs) buf = some (writeBytes buf a bs) := by
  intro bs
  induction bs with
  | nil => intro buf a _; rfl
  | cons b bs ih =>
    intro buf a h
    rw [regionEntries, commitWrites, if_pos (by show a < MEM_SIZE; simp at h; omega)]
    exact ih _ (a + 1) (by simp at h ⊢; omega)

theorem writeBytes_lt : ∀ (bs : List Nat) (buf : Nat → Nat) (a j : Nat),
    j < a → writeBytes buf a bs j = buf j := by
  intro bs
  induction bs with
  | nil => intro buf a j _; rfl
  | cons b bs ih =>
    intro buf a j hj
    rw [writeBytes, ih _ (a + 1) j (by omega), Function.update_noteq (by omega)]

theorem writeBytes_at : ∀ (bs : List Nat) (buf : Nat → Nat) (a i : Nat),
    i < bs.length → writeBytes buf a bs (a + i) = bs.getD i 0 := by
  intro bs
  induction bs with
  | nil => intro buf a i hi; simp at hi
  | cons b bs ih =>
    intro buf a i hi
    cases i with
    | zero =>
      show writeBytes (Function.update buf a b) (a + 1) bs a = b
      rw [writeBytes_lt bs _ (a + 1) a (by omega), Function.update_same]
    | succ i =>
      have he : a + (i + 1) = (a + 1) + i := by omega
      rw [writeBytes, he, ih _ (a + 1) i (by simp at hi; omega)]
      rfl

theorem load_array_bytes : ∀ (bs : List Nat) (t : MemoryMonitor) (a : Nat),
    a + bs.length ≤ MEM_SIZE →
    (∀ i, i < bs.length → t.image.buf (a + i) = bs.getD i 0) →
    t.load_array a bs.length = some bs := by
  intro bs
  induction bs with
  | nil => intro t a _ _; rfl
  | cons b bs ih =>
    intro t a hb h
    have h8 : t.load_u8 a = some b := by
      unfold MemoryMonitor.load_u8
      rw [if_pos (by simp at hb; omega)]
      have := h 0 (by simp)
      simpa using this
    have hrec : t.load_array (a + 1) bs.length = some bs := by
      refine ih t (a + 1) (by simp at hb; omega) (fun i hi => ?_)
      have := h (i + 1) (by simp; omega)
      have he : a + (i + 1) = (a + 1) + i := by omega
      rw [he] at this
      simpa using this
    show t.load_array a (bs.length + 1) = some (b :: bs)
    rw [MemoryMonitor.load_array, h8, hrec]

theorem toLEBytes_length : ∀ (n v : Nat), (toLEBytes n v).length = n := by
  intro n
  induction n with
  | zero => intro v; rfl
  | succ n ih => intro v; rw [toLEBytes]; simp [ih]

theorem fromLE_toLE : ∀ (n v : Nat), v < 2 ^ (8 * n) →
    fromLEBytes (toLEBytes n v) = v := by
  intro n
  induction n with
  | zero =>
    intro v hv
    simp [Nat.mul_zero, pow_zero] at hv
    simp [toLEBytes, fromLEBytes, hv]
  | succ n ih =>
    intro v hv
    have hpow : (2 : Nat) ^ (8 * (n + 1)) = 2 ^ (8 * n) * 256 := by
      rw [Nat.mul_succ, pow_add]; norm_num
    have hdiv : v / 256 < 2 ^ (8 * n) := by
      rw [Nat.div_lt_iff_lt_mul (by norm_num : (0 : Nat) < 256)]
      omega
    rw [toLEBytes, fromLEBytes, ih (v / 256) hdiv]
    omega

theorem store_region_commit_load (s : MemoryMonitor) (r : OpCodeResult) (a : Nat)
    (bs : List Nat) (hp : s.pending_writes = []) (hb : a + bs.length ≤ MEM_SIZE) :
    ∃ t, ((s.store_region a bs).save_op r).commit = some t ∧
      t.image.buf = writeBytes s.image.buf a bs ∧
      t.load_array a bs.length = some bs := by
  have hpend : ((s.store_region a bs).save_op r).pending_writes = regionEntries a bs := by
    show (s.store_region a bs).pending_writes = regionEntries a bs
    rw [store_region_pending bs s a (by rw [hp]; simp), hp]
    simp
  have himg : ((s.store_region a bs).save_op r).image = s.image :=
    (store_region_sep bs s a).1
  have hcw : commitWrites ((s.store_region a bs).save_op r).pending_writes
      ((s.store_region a bs).save_op r).image.buf = some (writeBytes s.image.buf a bs) := by
    rw [hpend, himg]
    exact commitWrites_region bs s.image.buf a hb
  have hop : ((s.store_region a bs).save_op r).op_result = some r := rfl
  refine ⟨_, commit_eq _ _ r hcw hop, rfl, ?_⟩
  exact load_array_bytes bs _ a hb (fun i hi => writeBytes_at bs s.image.buf a i hi)

theorem commit_none_of_cw_none (s : MemoryMonitor)
    (h : commitWrites s.pending_writes s.image.buf = none) : s.commit = none := by
  unfold MemoryMonitor.commit
  rw [h]

theorem load_array_isSome : ∀ (n : Nat) (s : MemoryMonitor) (a : Nat),
    a + n ≤ MEM_SIZE → (s.load_array a n).isSome := by
  intro n
  induction n with
  | zero => intro s a _; rfl
  | succ n ih =>
    intro s a h
    have h8 : s.load_u8 a = some (s.image.buf a) := by
      unfold MemoryMonitor.load_u8; rw [if_pos (by omega)]
    obtain ⟨bs, hbs⟩ := Option.isSome_iff_exists.mp (ih s (a + 1) (by omega))
    rw [MemoryMonitor.load_array, h8, hbs]
    rfl

/-! ## The claims -/

/-- C1: the claim states that `hash_pages` recomputes every page digest from
the page's current bytes and that `get_root` returns a digest derived from
the root page's bytes. The source contradicts it: the whole body of
`hash_pages` is commented out, so it is the identity on the image, and
`get_root` hashes the empty slice, returning the constant `SHA256_INIT`
whatever the memory contents are. -/
theorem hash_pages_noop_get_root_constant (img : MemoryImage) :
    img.hash_pages = img ∧ img.get_root = some shaInit :=
  ⟨rfl, rfl⟩

/-- C3: the claim states the pending-write buffer keeps at most one live
value per address and that the most recently issued one wins. Evaluating the
code on `store_u8(0, 5); store_u8(0, 3)` from an empty buffer: the
`BTreeSet` keyed by `(addr, data)` keeps both entries, and commit applies
them in ascending `(addr, data)` order, so the numerically largest byte `5`
ends in the image, not the last-issued `3`. -/
theorem double_store_largest_value_wins :
    ((monTest.store_u8 0 5).store_u8 0 3).pending_writes =
      [{ addr := 0, data := 3 }, { addr := 0, data := 5 }] ∧
    ((((monTest.store_u8 0 5).store_u8 0 3).save_op opNone).commit).bind
      (fun t => t.load_u8 0) = some 5 ∧ (5 : Nat) ≠ 3 :=
  ⟨rfl, rfl, by omega⟩

/-- C5 counterexample: at `PageTableInfo::new(1024, 1024)` construction
succeeds, `table_size = 64` is a multiple of the block size, but
`root_page_index * page_size = 1 * 1024 = 1024` while the computed
`num_pages` is `1`, so the claimed equation
`root_page_index * page_size == num_pages` fails. -/
theorem root_idx_times_page_size_ne_num_pages :
    (PageTableInfo.new 1024 1024).map
        (fun i => (i.page_table_size % BLOCK_BYTES, i.root_idx * i.page_size, i.num_pages))
      = some (0, 1024, 1) ∧ (1024 : Nat) ≠ 1 :=
  ⟨rfl, by omega⟩

/-- C5 (amended): for every geometry input with `page_size` above
`DIGEST_BYTES` (the source's loop diverges otherwise) on which
`PageTableInfo::new` returns, `table_size` is a multiple of the compression
block size and `root_page_index` equals the computed `num_pages` (the
equation the source asserts; equivalently
`root_page_index * page_size == root_page_addr`). -/
theorem table_size_block_multiple_and_root_idx_eq_num_pages
    (pta ps : Nat) (info : PageTableInfo) (_hps : DIGEST_BYTES < ps)
    (h : PageTableInfo.new pta ps = some info) :
    info.page_table_size % BLOCK_BYTES = 0 ∧ info.root_idx = info.num_pages := by
  unfold PageTableInfo.new at h
  dsimp only at h
  split at h
  · exact Option.noConfusion h
  · split at h
    next hguard =>
      have hi := Option.some.inj h
      subst hi
      refine ⟨?_, hguard⟩
      show round_up (ptLayers ps pta).2 BLOCK_BYTES % BLOCK_BYTES = 0
      unfold round_up
      exact Nat.mul_mod_left _ _
    next => exact Option.noConfusion h

theorem geometry_invariant_witness :
    infoTest.page_table_size % BLOCK_BYTES = 0 ∧ infoTest.root_idx = infoTest.num_pages :=
  table_size_block_multiple_and_root_idx_eq_num_pages 1024 1024 infoTest
    (by decide) (by decide)

/-- C8 counterexample: a monitor holding one buffered write at address
`MEM_SIZE` (one past the end of the buffer) with a result saved. The claim
says commit logs, drops the write and completes; the code logs and then
still executes `self.image.buf[op.addr] = op.data`, an out-of-bounds index,
so commit panics (`none`) instead of completing. -/
theorem commit_oob_does_not_complete : oobTest.commit = none := rfl

/-- C8 (amended): when commit processes a buffered write whose address lies
at or beyond the end of the addressable memory buffer, it logs the address
but does not drop the write: it still attempts the store, which is a fatal
out-of-bounds index panic, so the commit never completes. -/
theorem commit_oob_write_is_fatal (s : MemoryMonitor) (op : MemStore)
    (hm : op ∈ s.pending_writes) (ho : MEM_SIZE ≤ op.addr) : s.commit = none :=
  commit_none_of_cw_none s (commitWrites_oob s.pending_writes s.image.buf op hm ho)

theorem commit_oob_fatal_witness : oobTest2.commit = none :=
  commit_oob_write_is_fatal oobTest2 { addr := MEM_SIZE + 4, data := 1 }
    (by simp [oobTest2]) (by show MEM_SIZE ≤ MEM_SIZE + 4; omega)

/-- C9: after `clear_session` the pending-write buffer and the syscall log
are both empty, the image is untouched, and a load of any in-bounds address
returns the image's value — a write buffered before `clear_session` but
never committed is discarded and not observable. -/
theorem clear_session_discards_pending (s : MemoryMonitor) (a : Nat) :
    s.clear_session.pending_writes = [] ∧
    s.clear_session.syscalls = [] ∧
    s.clear_session.image = s.image ∧
    (a < MEM_SIZE → s.clear_session.load_u8 a = some (s.image.buf a)) := by
  refine ⟨rfl, rfl, rfl, fun h => ?_⟩
  unfold MemoryMonitor.load_u8
  rw [if_pos h]
  rfl

theorem clear_session_witness :
    (monTest.store_u8 3 9).clear_session.pending_writes = [] ∧
    (monTest.store_u8 3 9).clear_session.syscalls = [] ∧
    (monTest.store_u8 3 9).clear_session.load_u8 3 =
      some ((monTest.store_u8 3 9).image.buf 3) := by
  have h := clear_session_discards_pending (monTest.store_u8 3 9) 3
  exact ⟨h.1, h.2.1, h.2.2.2 (by decide)⟩

/-- C4: `commit` applies every buffered write to the image (an address with
a single live buffered value receives exactly that value, an unbuffered
address is untouched), leaves the pending-write buffer empty, consumes the
result saved by `save_op`, and appends its syscall record (when present) to
the segment's syscall log; calling `commit` with no saved result is a fatal
error (`none`, the `unwrap` panic), never a silent no-op. -/
theorem commit_applies_clears_consumes (s : MemoryMonitor) :
    (s.op_result = none → s.commit = none) ∧
    (∀ r s', s.op_result = some r → s.commit = some s' →
      s'.pending_writes = [] ∧ s'.op_result = none ∧
      s'.syscalls = s.syscalls ++ r.syscall.toList ∧
      (∀ a, (∀ d, MemStore.mk a d ∉ s.pending_writes) → s'.image.buf a = s.image.buf a) ∧
      (∀ a d, MemStore.mk a d ∈ s.pending_writes →
        (∀ d', MemStore.mk a d' ∈ s.pending_writes → d' = d) →
        s'.image.buf a = d)) := by
  refine ⟨commit_none_of_no_result s, ?_⟩
  intro r s' hr hc
  cases hcw : commitWrites s.pending_writes s.image.buf with
  | none =>
    rw [commit_none_of_cw_none s hcw] at hc
    exact Option.noConfusion hc
  | some buf =>
    rw [commit_eq s buf r hcw hr] at hc
    have hs' := Option.some.inj hc
    subst hs'
    refine ⟨rfl, rfl, rfl, ?_, ?_⟩
    · exact fun a hn => commitWrites_not_mem s.pending_writes s.image.buf buf a hcw hn
    · exact fun a d hm hu => commitWrites_unique s.pending_writes s.image.buf buf a d hcw hm hu

theorem commit_applies_witness :
    commitTestAfter.pending_writes = [] ∧ commitTestAfter.op_result = none ∧
    commitTestAfter.syscalls = commitTest.syscalls ++ opSys.syscall.toList ∧
    commitTestAfter.image.buf 0 = 7 := by
  have h := (commit_applies_clears_consumes commitTest).2 opSys commitTestAfter rfl rfl
  refine ⟨h.1, h.2.1, h.2.2.1, ?_⟩
  refine h.2.2.2.2 0 7 (by simp [commitTest]) ?_
  intro d' hd'
  simp [commitTest] at hd'
  exact hd'

/-- C6: every store operation (`store_u8`/`u16`/`u32`/`u64`,
`store_region`, `store_register`) leaves the image (and the cycle counter,
saved result, and syscall log) unchanged, modifying only the pending-write
buffer; hence a load of the stored address issued before `commit` still
returns the image's prior value, not the buffered one. -/
theorem stores_leave_image_unchanged (s : MemoryMonitor) (a d idx : Nat) (bs : List Nat) :
    sameExceptPending s (s.store_u8 a d) ∧
    sameExceptPending s (s.store_region a bs) ∧
    (∀ s', s.store_u16 a d = some s' → sameExceptPending s s') ∧
    (∀ s', s.store_u32 a d = some s' → sameExceptPending s s') ∧
    (∀ s', s.store_u64 a d = some s' → sameExceptPending s s') ∧
    (∀ s', s.store_register idx d = some s' → sameExceptPending s s') ∧
    (s.store_u8 a d).load_u8 a = s.load_u8 a := by
  refine ⟨store_u8_sep s a d, store_region_sep bs s a, ?_, ?_, ?_, ?_, rfl⟩
  · intro s' h
    unfold MemoryMonitor.store_u16 at h
    split at h
    · have := Option.some.inj h; subst this; exact store_region_sep _ s a
    · exact Option.noConfusion h
  · intro s' h
    unfold MemoryMonitor.store_u32 at h
    split at h
    · have := Option.some.inj h; subst this; exact store_region_sep _ s a
    · exact Option.noConfusion h
  · intro s' h
    unfold MemoryMonitor.store_u64 at h
    split at h
    · have := Option.some.inj h; subst this; exact store_region_sep _ s a
    · exact Option.noConfusion h
  · intro s' h
    unfold MemoryMonitor.store_register MemoryMonitor.store_u64 at h
    split at h
    · have := Option.some.inj h; subst this; exact store_region_sep _ s _
    · exact Option.noConfusion h

theorem stores_unchanged_witness :
    sameExceptPending monTest (monTest.store_u8 2 9) ∧
    sameExceptPending monTest storeU16Test := by
  refine ⟨(stores_leave_image_unchanged monTest 2 9 0 []).1, ?_⟩
  exact (stores_leave_image_unchanged monTest 0 5 0 []).2.2.1 storeU16Test rfl

/-- C7: every multi-byte load and store asserts that its address is a
multiple of its width — 2, 4 or 8 bytes — and the assert is fatal (`none`)
on misalignment; on an aligned address the store always proceeds and the
load proceeds whenever the access stays inside the buffer. -/
theorem multibyte_access_alignment (s : MemoryMonitor) (a d : Nat) :
    (a % 2 ≠ 0 → s.load_u16 a = none ∧ s.store_u16 a d = none) ∧
    (a % 4 ≠ 0 → s.load_u32 a = none ∧ s.store_u32 a d = none) ∧
    (a % 8 ≠ 0 → s.load_u64 a = none ∧ s.store_u64 a d = none) ∧
    (a % 2 = 0 → (s.store_u16 a d).isSome ∧
      (a + 2 ≤ MEM_SIZE → (s.load_u16 a).isSome)) ∧
    (a % 4 = 0 → (s.store_u32 a d).isSome ∧
      (a + 4 ≤ MEM_SIZE → (s.load_u32 a).isSome)) ∧
    (a % 8 = 0 → (s.store_u64 a d).isSome ∧
      (a + 8 ≤ MEM_SIZE → (s.load_u64 a).isSome)) := by
  refine ⟨fun h => ⟨?_, ?_⟩, fun h => ⟨?_, ?_⟩, fun h => ⟨?_, ?_⟩,
          fun h => ⟨?_, fun hb => ?_⟩, fun h => ⟨?_, fun hb => ?_⟩,
          fun h => ⟨?_, fun hb => ?_⟩⟩
  · unfold MemoryMonitor.load_u16; rw [if_neg h]
  · unfold MemoryMonitor.store_u16; rw [if_neg h]
  · unfold MemoryMonitor.load_u32 WORD_SIZE; rw [if_neg h]
  · unfold MemoryMonitor.store_u32 WORD_SIZE; rw [if_neg h]
  · unfold MemoryMonitor.load_u64 DOUBLE_WORD_SIZE; rw [if_neg h]
  · unfold MemoryMonitor.store_u64 DOUBLE_WORD_SIZE; rw [if_neg h]
  · unfold MemoryMonitor.store_u16; rw [if_pos h]; rfl
  · unfold MemoryMonitor.load_u16
    rw [if_pos h]
    obtain ⟨bs, hbs⟩ := Option.isSome_iff_exists.mp (load_array_isSome 2 s a hb)
    rw [hbs]; rfl
  · unfold MemoryMonitor.store_u32 WORD_SIZE; rw [if_pos h]; rfl
  · unfold MemoryMonitor.load_u32 WORD_SIZE
    rw [if_pos h]
    obtain ⟨bs, hbs⟩ := Option.isSome_iff_exists.mp (load_array_isSome 4 s a hb)
    rw [hbs]; rfl
  · unfold MemoryMonitor.store_u64 DOUBLE_WORD_SIZE; rw [if_pos h]; rfl
  · unfold MemoryMonitor.load_u64 DOUBLE_WORD_SIZE
    rw [if_pos h]
    obtain ⟨bs, hbs⟩ := Option.isSome_iff_exists.mp (load_array_isSome 8 s a hb)
    rw [hbs]; rfl

theorem alignment_witness :
    (monTest.load_u16 5 = none ∧ monTest.store_u16 5 1 = none) ∧
    (monTest.store_u32 4 1).isSome ∧ (monTest.load_u32 4).isSome := by
  refine ⟨(multibyte_access_alignment monTest 5 1).1 (by decide), ?_⟩
  have h := (multibyte_access_alignment monTest 4 1).2.2.2.2.1 (by decide)
  exact ⟨h.1, h.2 (by decide)⟩

/-- C10: from an instruction with an empty pending buffer, for every
in-bounds, width-aligned address and every value of the width,
`store_uN(a, v); save_op(r); commit()` followed by `load_uN(a)` returns `v`
for N in 8, 16, 32, 64: the store decomposes the value into little-endian
bytes, commit applies them, and the load reassembles them little-endian. -/
theorem store_commit_load_roundtrip (s : MemoryMonitor) (r : OpCodeResult) (a v : Nat)
    (hp : s.pending_writes = []) :
    (v < 2 ^ 8 → a + 1 ≤ MEM_SIZE →
      (((s.store_u8 a v).save_op r).commit).bind (fun t => t.load_u8 a) = some v) ∧
    (a % 2 = 0 → v < 2 ^ 16 → a + 2 ≤ MEM_SIZE →
      ((s.store_u16 a v).bind (fun u => (u.save_op r).commit)).bind
        (fun t => t.load_u16 a) = some v) ∧
    (a % 4 = 0 → v < 2 ^ 32 → a + 4 ≤ MEM_SIZE →
      ((s.store_u32 a v).bind (fun u => (u.save_op r).commit)).bind
        (fun t => t.load_u32 a) = some v) ∧
    (a % 8 = 0 → v < 2 ^ 64 → a + 8 ≤ MEM_SIZE →
      ((s.store_u64 a v).bind (fun u => (u.save_op r).commit)).bind
        (fun t => t.load_u64 a) = some v) := by
  refine ⟨fun _hv hb => ?_, fun ha hv hb => ?_, fun ha hv hb => ?_, fun ha hv hb => ?_⟩
  · obtain ⟨t, hc, hbuf, _⟩ :=
      store_region_commit_load s r a [v] hp (by simpa using hb)
    show (((s.store_region a [v]).save_op r).commit).bind (fun t => t.load_u8 a) = some v
    rw [hc]
    show t.load_u8 a = some v
    unfold MemoryMonitor.load_u8
    rw [if_pos (by omega), hbuf]
    simpa using writeBytes_at [v] s.image.buf a 0 (by simp)
  · obtain ⟨t, hc, _, hla⟩ := store_region_commit_load s r a (toLEBytes 2 v) hp
      (by rw [toLEBytes_length]; exact hb)
    rw [toLEBytes_length] at hla
    have hs : s.store_u16 a v = some (s.store_region a (toLEBytes 2 v)) := by
      unfold MemoryMonitor.store_u16; rw [if_pos ha]
    rw [hs]
    show (((s.store_region a (toLEBytes 2 v)).save_op r).commit).bind
      (fun t => t.load_u16 a) = some v
    rw [hc]
    show t.load_u16 a = some v
    unfold MemoryMonitor.load_u16
    rw [if_pos ha, hla]
    show some (fromLEBytes (toLEBytes 2 v)) = some v
    rw [fromLE_toLE 2 v hv]
  · obtain ⟨t, hc, _, hla⟩ := store_region_commit_load s r a (toLEBytes 4 v) hp
      (by rw [toLEBytes_length]; exact hb)
    rw [toLEBytes_length] at hla
    have hs : s.store_u32 a v = some (s.store_region a (toLEBytes 4 v)) := by
      unfold MemoryMonitor.store_u32 WORD_SIZE; rw [if_pos ha]
    rw [hs]
    show (((s.store_region a (toLEBytes 4 v)).save_op r).commit).bind
      (fun t => t.load_u32 a) = some v
    rw [hc]
    show t.load_u32 a = some v
    unfold MemoryMonitor.load_u32 WORD_SIZE
    rw [if_pos ha, hla]
    show some (fromLEBytes (toLEBytes 4 v)) = some v
    rw [fromLE_toLE 4 v hv]
  · obtain ⟨t, hc, _, hla⟩ := store_region_commit_load s r a (toLEBytes 8 v) hp
      (by rw [toLEBytes_length]; exact hb)
    rw [toLEBytes_length] at hla
    have hs : s.store_u64 a v = some (s.store_region a (toLEBytes 8 v)) := by
      unfold MemoryMonitor.store_u64 DOUBLE_WORD_SIZE; rw [if_pos ha]
    rw [hs]
    show (((s.store_region a (toLEBytes 8 v)).save_op r).commit).bind
      (fun t => t.load_u64 a) = some v
    rw [hc]
    show t.load_u64 a = some v
    unfold MemoryMonitor.load_u64 DOUBLE_WORD_SIZE
    rw [if_pos ha, hla]
    show some (fromLEBytes (toLEBytes 8 v)) = some v
    rw [fromLE_toLE 8 v hv]

theorem roundtrip_witness :
    (((monTest.store_u8 8 7).save_op opNone).commit).bind (fun t => t.load_u8 8) = some 7 ∧
    ((monTest.store_u64 16 300).bind (fun u => (u.save_op opNone).commit)).bind
      (fun t => t.load_u64 16) = some 300 := by
  refine ⟨(store_commit_load_roundtrip monTest opNone 8 7 rfl).1 (by decide) (by decide), ?_⟩
  exact (store_commit_load_roundtrip monTest opNone 16 300 rfl).2.2.2
    (by decide) (by decide) (by decide)

set_option maxRecDepth 100000 in
/-- C2: the claim states that `check(addr)` succeeds for every address
immediately after `MemoryImage::new` (the repository's own `check_integrity`
test expects exactly that). Evaluating the code on the image built from an
empty program with page size 1024 at address 0: `hash_pages` (a no-op) left
the table entry of page 0 as 32 zero bytes, while the digest recomputed from
the page's 1024 zero bytes is the nonzero SHA-256 fold, so `check(0)` bails
with "Invalid page table entry" for page 0 instead of succeeding. -/
theorem check_fails_after_new :
    (MemoryImage.new [] 1024).map (fun img => img.check 0) =
      some (Except.error (CheckError.invalidPageEntry 0)) := rfl
